import Mathlib

/-!
Shallow embedding of the cryptographic core of the quantum01 chat service
(`backend/quantum/encryption.py`, `backend/routers/rooms.py`,
`backend/routers/websockets.py`).

Bytes are modelled as unbounded natural numbers (`Byte := Nat`); byte
strings as `List Nat`.  The AEAD (AES-GCM) is modelled symbolically in the
standard collision-free idealization: encryption is an XOR keystream (GCM
is CTR mode plus a tag), the tag is an injective function of
(key, nonce, ciphertext) realized through `Nat.pair`, and key-derivation
functions (PBKDF2-HMAC-SHA256, the SHA-256 based message-key derivation)
are injective functions of their inputs.  Base64 is modelled as a
reversible byte-to-alphabet-digit encoding (two base-64 digits per byte);
digit values that exceed 63 (impossible for true bytes, possible here only
because model bytes are unbounded) are mapped injectively above 255.
-/

/-- A model byte: an unbounded natural number. -/
abbrev Byte := Nat

/-- A model byte string. -/
abbrev Bytes := List Nat

/-- Binary digits, least significant first, by structural recursion on
a fuel bound (so that the kernel can evaluate it). -/
def natBitsAux : Nat → Nat → List Nat
  | _, 0 => []
  | 0, _ + 1 => []
  | fuel + 1, n + 1 => ((n + 1) % 2) :: natBitsAux fuel ((n + 1) / 2)

/-- The binary digits of a natural number, least significant first
(`natBits 6 = [0, 1, 1]`, `natBits 0 = []`). -/
def natBits (n : Nat) : List Nat := natBitsAux n n

theorem natBitsAux_congr (f1 : Nat) :
    ∀ f2 n, n ≤ f1 → n ≤ f2 → natBitsAux f1 n = natBitsAux f2 n := by
  induction f1 using Nat.strong_induction_on with
  | _ f1 ih =>
    intro f2 n h1 h2
    match f1, f2, n with
    | g1, g2, 0 => cases g1 <;> cases g2 <;> rfl
    | 0, _, n + 1 => omega
    | _ + 1, 0, n + 1 => omega
    | f1 + 1, f2 + 1, n + 1 =>
      rw [natBitsAux, natBitsAux]
      rw [ih f1 (by omega) f2 ((n + 1) / 2) (by omega) (by omega)]

theorem natBits_succ (n : Nat) :
    natBits (n + 1) = ((n + 1) % 2) :: natBits ((n + 1) / 2) := by
  rw [natBits, natBitsAux, natBits]
  rw [natBitsAux_congr n ((n + 1) / 2) ((n + 1) / 2) (by omega) (by omega)]

theorem natBits_lt_two (n : Nat) : ∀ d ∈ natBits n, d < 2 := by
  induction n using Nat.strong_induction_on with
  | _ n ih =>
    cases n with
    | zero => simp [natBits, natBitsAux]
    | succ m =>
      intro d hd
      rw [natBits_succ] at hd
      rcases List.mem_cons.mp hd with h | h
      · omega
      · exact ih ((m + 1) / 2) (by omega) d h

theorem natBits_injective : Function.Injective natBits := by
  intro m
  induction m using Nat.strong_induction_on with
  | _ m ih =>
    intro n h
    match m, n with
    | 0, 0 => rfl
    | 0, n + 1 => rw [natBits_succ] at h; simp [natBits, natBitsAux] at h
    | m + 1, 0 => rw [natBits_succ] at h; simp [natBits, natBitsAux] at h
    | m + 1, n + 1 =>
      rw [natBits_succ, natBits_succ, List.cons.injEq] at h
      have h2 := ih ((m + 1) / 2) (by omega) h.2
      omega

/-- One base-3 digit block per byte: the byte's binary digits followed
by a separator digit `2`. -/
def byteBlocks : Bytes → List Nat
  | [] => []
  | b :: bs => natBits b ++ 2 :: byteBlocks bs

theorem byteBlocks_lt_three (bs : Bytes) : ∀ d ∈ byteBlocks bs, d < 3 := by
  induction bs with
  | nil => simp [byteBlocks]
  | cons b bs ih =>
    intro d hd
    simp only [byteBlocks, List.mem_append, List.mem_cons] at hd
    rcases hd with h | h | h
    · exact lt_trans (natBits_lt_two b d h) (by omega)
    · omega
    · exact ih d h

theorem byteBlocks_lastOk (bs : Bytes) :
    byteBlocks bs = [] ∨ (byteBlocks bs).getLast? = some 2 := by
  induction bs with
  | nil => exact Or.inl rfl
  | cons b bs ih =>
    right
    rcases ih with h | h
    · rw [byteBlocks, h]
      simp [List.getLast?_append]
    · rw [byteBlocks, List.getLast?_append]
      cases hbb : byteBlocks bs with
      | nil => rw [hbb] at h; simp at h
      | cons a as =>
        rw [hbb] at h
        rw [List.getLast?_cons_cons, h]
        rfl

theorem append_two_cons_inj {xs ys u v : List Nat}
    (hx : 2 ∉ xs) (hy : 2 ∉ ys)
    (h : xs ++ 2 :: u = ys ++ 2 :: v) : xs = ys ∧ u = v := by
  induction xs generalizing ys with
  | nil =>
    cases ys with
    | nil => simpa using h
    | cons y ys =>
      simp only [List.nil_append, List.cons_append, List.cons.injEq] at h
      simp only [List.mem_cons, not_or] at hy
      exact absurd h.1 hy.1
  | cons x xs ih =>
    cases ys with
    | nil =>
      simp only [List.cons_append, List.nil_append, List.cons.injEq] at h
      simp only [List.mem_cons, not_or] at hx
      exact absurd h.1.symm hx.1
    | cons y ys =>
      simp only [List.cons_append, List.cons.injEq] at h
      simp only [List.mem_cons, not_or] at hx hy
      have h3 := ih hx.2 hy.2 h.2
      exact ⟨by rw [h.1, h3.1], h3.2⟩

theorem byteBlocks_injective : Function.Injective byteBlocks := by
  intro xs
  induction xs with
  | nil =>
    intro ys h
    cases ys with
    | nil => rfl
    | cons y ys =>
      rw [byteBlocks, byteBlocks] at h
      exact absurd h.symm (by simp)
  | cons x xs ih =>
    intro ys h
    cases ys with
    | nil =>
      rw [byteBlocks, byteBlocks] at h
      exact absurd h (by simp)
    | cons y ys =>
      rw [byteBlocks, byteBlocks] at h
      have hx2 : 2 ∉ natBits x := fun hc => by
        have := natBits_lt_two x 2 hc; omega
      have hy2 : 2 ∉ natBits y := fun hc => by
        have := natBits_lt_two y 2 hc; omega
      obtain ⟨h1, h2⟩ := append_two_cons_inj hx2 hy2 h
      rw [natBits_injective h1, ih h2]

/-- Base-3 value of a digit string, least significant digit first. -/
def digitsVal3 : List Nat → Nat
  | [] => 0
  | d :: ds => d + 3 * digitsVal3 ds

theorem digitsVal3_pos_of_last {ds : List Nat} (h : ds.getLast? = some 2) :
    0 < digitsVal3 ds := by
  induction ds with
  | nil => simp at h
  | cons d ds ih =>
    cases ds with
    | nil =>
      simp only [List.getLast?_singleton, Option.some.injEq] at h
      simp [digitsVal3, h]
    | cons e es =>
      rw [List.getLast?_cons_cons] at h
      have h2 := ih h
      have h3 : digitsVal3 (d :: e :: es) = d + 3 * digitsVal3 (e :: es) := rfl
      omega

theorem digitsVal3_inj {ds es : List Nat}
    (hd : ∀ d ∈ ds, d < 3) (he : ∀ e ∈ es, e < 3)
    (hdl : ds = [] ∨ ds.getLast? = some 2)
    (hel : es = [] ∨ es.getLast? = some 2)
    (h : digitsVal3 ds = digitsVal3 es) : ds = es := by
  induction ds generalizing es with
  | nil =>
    cases es with
    | nil => rfl
    | cons e es =>
      rcases hel with hel | hel
      · exact absurd hel (by simp)
      · have := digitsVal3_pos_of_last hel
        rw [digitsVal3] at h
        omega
  | cons d ds ih =>
    cases es with
    | nil =>
      rcases hdl with hdl | hdl
      · exact absurd hdl (by simp)
      · have := digitsVal3_pos_of_last hdl
        rw [digitsVal3] at h
        omega
    | cons e es =>
      rw [digitsVal3, digitsVal3] at h
      have hd0 : d < 3 := hd d (by simp)
      have he0 : e < 3 := he e (by simp)
      have hde : d = e := by omega
      have hval : digitsVal3 ds = digitsVal3 es := by omega
      have hds : ds = [] ∨ ds.getLast? = some 2 := by
        cases ds with
        | nil => exact Or.inl rfl
        | cons a as =>
          rcases hdl with hdl | hdl
          · exact absurd hdl (by simp)
          · rw [List.getLast?_cons_cons] at hdl
            exact Or.inr hdl
      have hes : es = [] ∨ es.getLast? = some 2 := by
        cases es with
        | nil => exact Or.inl rfl
        | cons a as =>
          rcases hel with hel | hel
          · exact absurd hel (by simp)
          · rw [List.getLast?_cons_cons] at hel
            exact Or.inr hel
      have := ih (fun x hx => hd x (by simp [hx])) (fun x hx => he x (by simp [hx]))
        hds hes hval
      rw [hde, this]

/-- Injective encoding of a byte string into a single natural number:
the base-3 value of its separator-delimited binary digit blocks.  Used
to model collision-free hashing/derivation. -/
def encodeBytes (bs : Bytes) : Nat :=
  digitsVal3 (byteBlocks bs)

theorem encodeBytes_injective : Function.Injective encodeBytes := by
  intro xs ys h
  exact byteBlocks_injective
    (digitsVal3_inj (byteBlocks_lt_three xs) (byteBlocks_lt_three ys)
      (byteBlocks_lastOk xs) (byteBlocks_lastOk ys) h)

/-- The base64 alphabet, as in RFC 4648 (`A-Z`, `a-z`, `0-9`, `+`, `/`),
mapping a digit value to its ASCII code; digit values above 63 (which
cannot arise from true 8-bit bytes) are moved injectively above 255. -/
def b64digitChar (d : Nat) : Nat :=
  if d < 26 then 65 + d
  else if d < 52 then 71 + d
  else if d < 62 then d - 4
  else if d = 62 then 43
  else if d = 63 then 47
  else 256 + d

/-- Inverse of `b64digitChar`. -/
def b64digitVal (c : Nat) : Option Nat :=
  if 65 ≤ c ∧ c ≤ 90 then some (c - 65)
  else if 97 ≤ c ∧ c ≤ 122 then some (c - 71)
  else if 48 ≤ c ∧ c ≤ 57 then some (c + 4)
  else if c = 43 then some 62
  else if c = 47 then some 63
  else if 256 ≤ c then some (c - 256)
  else none

set_option maxHeartbeats 1000000 in
theorem b64digitVal_digitChar (d : Nat) : b64digitVal (b64digitChar d) = some d := by
  unfold b64digitChar b64digitVal
  split_ifs <;> (try simp only [Option.some.injEq]) <;> omega

/-- The base64 alphabet never contains the single-quote, brace, comma,
colon or space characters used by the Python `str(dict)` envelope. -/
theorem b64digitChar_ne (d : Nat) :
    b64digitChar d ≠ 39 ∧ b64digitChar d ≠ 123 ∧ b64digitChar d ≠ 125 ∧
    b64digitChar d ≠ 44 ∧ b64digitChar d ≠ 58 ∧ b64digitChar d ≠ 32 := by
  unfold b64digitChar
  split_ifs <;> omega

/-- Model of `base64.b64encode`: each byte becomes two base-64 digits
(its quotient and remainder by 64), rendered through the alphabet. -/
def b64e (bs : Bytes) : Bytes :=
  bs.flatMap fun b => [b64digitChar (b / 64), b64digitChar (b % 64)]

/-- Model of `base64.b64decode`: decodes pairs of alphabet characters,
failing (as `binascii.Error` does) on ill-formed input. -/
def b64d : Bytes → Option Bytes
  | [] => some []
  | [_] => none
  | c1 :: c2 :: rest =>
    match b64digitVal c1, b64digitVal c2, b64d rest with
    | some d1, some d2, some tail => some ((d1 * 64 + d2) :: tail)
    | _, _, _ => none

theorem b64d_b64e (bs : Bytes) : b64d (b64e bs) = some bs := by
  induction bs with
  | nil => rfl
  | cons b bs ih =>
    have hb : b / 64 * 64 + b % 64 = b := by omega
    simp only [b64e, List.flatMap_cons, List.append_eq, List.cons_append,
      List.nil_append] at *
    simp only [b64d, b64digitVal_digitChar, ih, hb]

theorem b64e_append (a b : Bytes) : b64e (a ++ b) = b64e a ++ b64e b := by
  simp [b64e]

theorem b64e_ne_quote (bs : Bytes) : ∀ c ∈ b64e bs, c ≠ 39 := by
  intro c hc
  simp only [b64e, List.mem_flatMap, List.mem_cons] at hc
  rcases hc with ⟨b, _, h⟩
  rcases h with h | h | h
  · exact h ▸ (b64digitChar_ne (b / 64)).1
  · exact h ▸ (b64digitChar_ne (b % 64)).1
  · simp at h

/-- The keystream of the symbolic AES-GCM model (GCM's underlying CTR
mode): a function of key, nonce and byte position, reduced to one byte
as CTR output is. -/
def keyStream (key : Nat) (iv : Bytes) (i : Nat) : Nat :=
  Nat.pair key (Nat.pair (encodeBytes iv) i) % 256

/-- XOR a byte string against the keystream starting at position `i`.
This models both the `encryptor.update` and `decryptor.update` passes of
AES-GCM (CTR mode is its own inverse). -/
def xorStreamAux (key : Nat) (iv : Bytes) (i : Nat) : Bytes → Bytes
  | [] => []
  | b :: bs => (b ^^^ keyStream key iv i) :: xorStreamAux key iv (i + 1) bs

def xorStream (key : Nat) (iv : Bytes) (bs : Bytes) : Bytes :=
  xorStreamAux key iv 0 bs

theorem xorStreamAux_involutive (key : Nat) (iv : Bytes) (i : Nat) (bs : Bytes) :
    xorStreamAux key iv i (xorStreamAux key iv i bs) = bs := by
  induction bs generalizing i with
  | nil => rfl
  | cons b bs ih =>
    simp [xorStreamAux, ih, Nat.xor_cancel_right]

theorem xorStream_involutive (key : Nat) (iv : Bytes) (bs : Bytes) :
    xorStream key iv (xorStream key iv bs) = bs :=
  xorStreamAux_involutive key iv 0 bs

theorem length_xorStreamAux (key : Nat) (iv : Bytes) (i : Nat) (bs : Bytes) :
    (xorStreamAux key iv i bs).length = bs.length := by
  induction bs generalizing i with
  | nil => rfl
  | cons b bs ih => simp [xorStreamAux, ih]

theorem length_xorStream (key : Nat) (iv : Bytes) (bs : Bytes) :
    (xorStream key iv bs).length = bs.length :=
  length_xorStreamAux key iv 0 bs

/-- The GCM authentication tag, idealized as a collision-free MAC of
(key, nonce, ciphertext). -/
def gcmTagNat (key : Nat) (iv ct : Bytes) : Nat :=
  Nat.pair key (Nat.pair (encodeBytes iv) (encodeBytes ct))

/-- The 16-byte tag field: the MAC value followed by fifteen padding
zeros (true GCM packs the MAC into sixteen 8-bit bytes; model bytes are
unbounded, so the first byte carries the whole value). -/
def gcmTag (key : Nat) (iv ct : Bytes) : Bytes :=
  gcmTagNat key iv ct :: List.replicate 15 0

theorem length_gcmTag (key : Nat) (iv ct : Bytes) : (gcmTag key iv ct).length = 16 := by
  simp [gcmTag]

theorem gcmTag_inj_key {k k' : Nat} {iv ct : Bytes}
    (h : gcmTag k iv ct = gcmTag k' iv ct) : k = k' := by
  simp only [gcmTag, List.cons.injEq, gcmTagNat, Nat.pair_eq_pair] at h
  exact h.1.1

/-! ### Key derivation (`encryption.py`)

`encrypt_message`/`decrypt_message` derive the AES key as
`SHA256(shared_secret || b"quantumchat-message-key")`;
`encrypt_private_key`/`decrypt_private_key` derive it with
`PBKDF2HMAC(SHA256, length=32, salt, iterations=100_000)` from the
password.  Both are modelled as collision-free functions into `Nat`. -/

/-- The context label `b"quantumchat-message-key"` hashed into the
message key. -/
def messageKeyLabel : Bytes :=
  [113, 117, 97, 110, 116, 117, 109, 99, 104, 97, 116, 45, 109, 101,
   115, 115, 97, 103, 101, 45, 107, 101, 121]

/-- `SHA256(shared_secret || label)` of `encrypt_message`, idealized. -/
def messageKey (shared_secret : Bytes) : Nat :=
  Nat.pair (encodeBytes shared_secret) (encodeBytes messageKeyLabel)

/-- PBKDF2-HMAC-SHA256 of `encrypt_private_key`, idealized. -/
def pbkdf2Key (password salt : Bytes) : Nat :=
  Nat.pair (encodeBytes password) (encodeBytes salt)

theorem pbkdf2Key_inj_password {pw pw' salt : Bytes}
    (h : pbkdf2Key pw salt = pbkdf2Key pw' salt) : pw = pw' := by
  simp only [pbkdf2Key, Nat.pair_eq_pair] at h
  exact encodeBytes_injective h.1

/-! ### The Kyber768 KEM (`encryption.py`), modelled symbolically.

`KEM_AVAILABLE` is the module-level flag set by the `import oqs`
attempt; the three functions below each branch on it per call, exactly
as the source does.  (The source additionally rebinds `KEM_AVAILABLE`
inside each function's `except` arm, which under Python scoping makes
the name function-local; the model follows the evident intended data
flow: read the flag, use Kyber when set, otherwise the documented
"secure AES fallback" built from `os.urandom`.)  Randomness
(`os.urandom`, KEM coins) is passed in explicitly. -/

/-- A Kyber768 public key, symbolically: tagged generation seed. -/
def kyberPub (seed : Nat) : Bytes := [1, seed]

/-- A Kyber768 private (secret) key, symbolically. -/
def kyberPriv (seed : Nat) : Bytes := [2, seed]

/-- The KEM shared secret determined by a public key and encapsulation
coins. -/
def kemSharedSecret (public_key : Bytes) (r : Nat) : Bytes :=
  [Nat.pair (encodeBytes public_key) r]

/-- `generate_kyber_keypair()`: with the KEM available, a real Kyber768
keypair; otherwise the fallback returns two independent `os.urandom(32)`
strings (`rnd1`, `rnd2`) as placeholder "keys".  It never fails. -/
def generate_kyber_keypair (kemAvailable : Bool) (seed : Nat)
    (rnd1 rnd2 : Bytes) : Bytes × Bytes :=
  if kemAvailable then (kyberPub seed, kyberPriv seed)
  else (rnd1, rnd2)

/-- `encapsulate_key(public_key)`: with the KEM, Kyber encapsulation
with coins `r`; otherwise the fallback returns `os.urandom(32)` as the
shared secret and `base64.b64encode(shared_secret + os.urandom(16))` as
the "ciphertext".  Returns `(shared_secret, ciphertext)`. -/
def encapsulate_key (kemAvailable : Bool) (public_key : Bytes) (r : Nat)
    (rnd1 rnd2 : Bytes) : Bytes × Bytes :=
  if kemAvailable then
    (kemSharedSecret public_key r, [4, encodeBytes public_key, r])
  else
    (rnd1, b64e (rnd1 ++ rnd2))

/-- `decapsulate_key(private_key, ciphertext)`: with the KEM, Kyber
decapsulation — yielding the encapsulated secret exactly when the
ciphertext was produced against this private key's public key, and an
implicit-rejection pseudo-random value otherwise; the fallback decodes
the placeholder ciphertext and takes its first 32 bytes, or returns
`os.urandom(32)` if decoding fails. -/
def decapsulate_key (kemAvailable : Bool) (private_key ciphertext : Bytes)
    (rnd : Bytes) : Bytes :=
  if kemAvailable then
    match private_key, ciphertext with
    | [2, s], [4, pe, r] =>
      if pe = encodeBytes (kyberPub s) then [Nat.pair pe r]
      else [Nat.pair 9 (Nat.pair (Nat.pair 2 s) (Nat.pair pe r))]
    | sk, ct => [Nat.pair 9 (Nat.pair (encodeBytes sk) (encodeBytes ct))]
  else
    match b64d ciphertext with
    | some decoded => decoded.take 32
    | none => rnd

/-! ### The message envelope (`encrypt_message` / `decrypt_message`)

`encrypt_message` builds the Python dict
`{'iv': b64(iv), 'ciphertext': b64(ct), 'tag': b64(tag)}` and returns
`base64.b64encode(str(encrypted_data).encode())`; `decrypt_message`
recovers the dict with `eval` on the decoded text.  The byte constants
below are the ASCII codes of the `str(dict)` punctuation
(`\x7b`, `'`, `,`, space, `:`, `\x7d`) and of the key names
`iv`, `ciphertext`, `tag`. -/

/-- `str(dict)` up to the opening quote of the `iv` value. -/
def envHead : Bytes := [123, 39, 105, 118, 39, 58, 32, 39]

/-- Between the `iv` value's closing quote (consumed by the field
parser) and the opening quote of the `ciphertext` value. -/
def envMidCt : Bytes :=
  [44, 32, 39, 99, 105, 112, 104, 101, 114, 116, 101, 120, 116, 39, 58, 32, 39]

/-- Between the `ciphertext` value and the opening quote of the `tag`
value. -/
def envMidTag : Bytes := [44, 32, 39, 116, 97, 103, 39, 58, 32, 39]

/-- Rendering of the three-field dict by Python's `str`. -/
def renderEnvelope (ivS ctS tagS : Bytes) : Bytes :=
  envHead ++ ivS ++ (39 :: envMidCt) ++ ctS ++ (39 :: envMidTag) ++
    tagS ++ [39, 125]

/-- Strip an expected literal from the front of the input. -/
def stripLit : Bytes → Bytes → Option Bytes
  | [], s => some s
  | _ :: _, [] => none
  | p :: ps, c :: cs => if p = c then stripLit ps cs else none

/-- Split the input at the first single-quote (ASCII 39), consuming it. -/
def splitAtQuote : Bytes → Option (Bytes × Bytes)
  | [] => none
  | c :: cs =>
    if c = 39 then some ([], cs)
    else
      match splitAtQuote cs with
      | some (pre, post) => some (c :: pre, post)
      | none => none

/-- The effect of `eval` on the decoded envelope text followed by the
`['iv']`, `['ciphertext']`, `['tag']` accesses: recovers the three field
strings of a well-formed `str(dict)` rendering, fails otherwise. -/
def evalEnvelope (env : Bytes) : Option (Bytes × Bytes × Bytes) := do
  let r1 ← stripLit envHead env
  let (ivS, r2) ← splitAtQuote r1
  let r3 ← stripLit envMidCt r2
  let (ctS, r4) ← splitAtQuote r3
  let r5 ← stripLit envMidTag r4
  let (tagS, r6) ← splitAtQuote r5
  if r6 = [125] then some (ivS, ctS, tagS) else none

/-- `encrypt_message(message, shared_secret)` with the fresh
`os.urandom(12)` nonce passed in as `iv`; the plaintext string is
modelled as its UTF-8 bytes. -/
def encrypt_message (message shared_secret iv : Bytes) : Bytes :=
  let derived_key := messageKey shared_secret
  let ciphertext := xorStream derived_key iv message
  let tag := gcmTag derived_key iv ciphertext
  b64e (renderEnvelope (b64e iv) (b64e ciphertext) (b64e tag))

/-- The distinct causes embedded by
`raise ValueError(f"Decryption failed: \x7be\x7d")`: all failures share
the one Python error type, but the message interpolates the underlying
exception. -/
inductive MsgDecryptErr
  | b64Error
  | evalError
  | tagMismatch
  deriving DecidableEq

/-- `decrypt_message(encrypted_data, shared_secret)`. -/
def decrypt_message (encrypted_data shared_secret : Bytes) :
    Except MsgDecryptErr Bytes :=
  match b64d encrypted_data with
  | none => .error .b64Error
  | some env =>
    match evalEnvelope env with
    | none => .error .evalError
    | some (ivS, ctS, tagS) =>
      match b64d ivS, b64d ctS, b64d tagS with
      | some iv, some ciphertext, some tag =>
        if tag.length < 16 then .error .evalError
        else
          let derived_key := messageKey shared_secret
          if gcmTag derived_key iv ciphertext = tag then
            .ok (xorStream derived_key iv ciphertext)
          else .error .tagMismatch
      | _, _, _ => .error .b64Error

/-- `encrypt_private_key(private_key, password)` with the fresh
`os.urandom(16)` salt and `os.urandom(12)` nonce passed in; returns
`base64.b64encode(salt + iv + tag + ciphertext)`. -/
def encrypt_private_key (private_key password salt iv : Bytes) : Bytes :=
  let key := pbkdf2Key password salt
  let ciphertext := xorStream key iv private_key
  let tag := gcmTag key iv ciphertext
  b64e (salt ++ iv ++ tag ++ ciphertext)

/-- The distinct causes embedded by
`raise ValueError(f"Private key decryption failed: \x7be\x7d")`. -/
inductive PrivKeyDecryptErr
  | b64Error
  | formatError
  | tagMismatch
  deriving DecidableEq

/-- `decrypt_private_key(encrypted_key, password)`: decode, slice the
fixed offsets `[:16]`, `[16:28]`, `[28:44]`, `[44:]`, re-derive the key
and open the AEAD. -/
def decrypt_private_key (encrypted_key password : Bytes) :
    Except PrivKeyDecryptErr Bytes :=
  match b64d encrypted_key with
  | none => .error .b64Error
  | some decoded =>
    let salt := decoded.take 16
    let iv := (decoded.drop 16).take 12
    let tag := (decoded.drop 28).take 16
    let ciphertext := decoded.drop 44
    if tag.length < 16 then .error .formatError
    else
      let key := pbkdf2Key password salt
      if gcmTag key iv ciphertext = tag then .ok (xorStream key iv ciphertext)
      else .error .tagMismatch

/-! ### Rooms router (`backend/routers/rooms.py`)

The relational state is modelled with the row types of
`backend/database/models.py`: the `user_room` association table as a
list of `(user_id, room_id)` pairs and `key_distributions` as a list of
records, each appended in the order the code `db.add`s them. -/

structure UserRec where
  id : Nat
  /-- `User.kyber_public_key`: the base64-encoded public key column. -/
  kyber_public_key : Bytes
  deriving DecidableEq

structure KeyDistribution where
  room_id : Nat
  user_id : Nat
  /-- The base64 text stored in the `encapsulated_key` column. -/
  encapsulated_key : Bytes
  deriving DecidableEq

structure RoomRec where
  id : Nat
  name : String
  deriving DecidableEq

structure DB where
  rooms : List RoomRec
  /-- `user_room` rows: `(user_id, room_id)`. -/
  memberships : List (Nat × Nat)
  key_dists : List KeyDistribution
  nextRoomId : Nat
  deriving DecidableEq

/-- The member set of a room: users with a `user_room` row for it. -/
def room_members (db : DB) (rid : Nat) : List Nat :=
  (db.memberships.filter fun m => m.2 == rid).map Prod.fst

/-- The persisted key-distribution rows of a room. -/
def room_key_dists (db : DB) (rid : Nat) : List KeyDistribution :=
  db.key_dists.filter fun kd => kd.room_id == rid

/-- `create_room` (`rooms.py`): generates `room_symmetric_key =
os.urandom(32)`, creates the room row, inserts the creator's membership,
encapsulates against the creator's (decoded) public key, and persists
`base64.b64encode(room_symmetric_key + ciphertext)` as the creator's
`KeyDistribution`.  `r`, `rnd1`, `rnd2` are the encapsulation's
randomness. -/
def create_room (kemAvailable : Bool) (current_user : UserRec) (name : String)
    (room_symmetric_key : Bytes) (r : Nat) (rnd1 rnd2 : Bytes) (db : DB) :
    DB × RoomRec :=
  let new_room : RoomRec := ⟨db.nextRoomId, name⟩
  let creator_public_key := (b64d current_user.kyber_public_key).getD []
  let encResult := encapsulate_key kemAvailable creator_public_key r rnd1 rnd2
  let ciphertext := encResult.2
  let key_data := b64e (room_symmetric_key ++ ciphertext)
  let key_dist : KeyDistribution := ⟨new_room.id, current_user.id, key_data⟩
  ({ rooms := db.rooms ++ [new_room],
     memberships := db.memberships ++ [(current_user.id, new_room.id)],
     key_dists := db.key_dists ++ [key_dist],
     nextRoomId := db.nextRoomId + 1 }, new_room)

/-- `join_room` (`rooms.py`): 404 if the room does not exist, 400 if
already a member; otherwise inserts the membership, finds some other
member's `KeyDistribution` row, and stores a byte-for-byte re-encoded
copy of its decoded blob for the joining user (500, with the membership
insert rolled back uncommitted, if no such row exists). -/
def join_room (current_user : UserRec) (room_id : Nat) (db : DB) :
    Except Nat DB :=
  match db.rooms.find? (fun room => room.id == room_id) with
  | none => .error 404
  | some room =>
    if (current_user.id, room_id) ∈ db.memberships then .error 400
    else
      match db.key_dists.find?
          (fun kd => kd.room_id == room_id && kd.user_id != current_user.id) with
      | some creator_key_dist =>
        let creator_key_data := (b64d creator_key_dist.encapsulated_key).getD []
        let new_user_key_data := creator_key_data
        let key_dist : KeyDistribution :=
          ⟨room.id, current_user.id, b64e new_user_key_data⟩
        .ok { db with
              memberships := db.memberships ++ [(current_user.id, room_id)],
              key_dists := db.key_dists ++ [key_dist] }
      | none => .error 500

/-! ### `ConnectionManager` (`backend/routers/websockets.py`)

`active_connections: Dict[int, List[WebSocket]]` is modelled as an
association list from room id to the list of connections (connections
as opaque `Nat` handles).  Delivery success is modelled by a predicate
`fails` saying which connections' `send_text` raises. -/

/-- The connection registry: `room_id -> list of websockets`. -/
abbrev Registry := List (Nat × List Nat)

/-- Python `dict` lookup (`room_id in self.active_connections` /
`self.active_connections[room_id]`). -/
def regLookup (reg : Registry) (rid : Nat) : Option (List Nat) :=
  (reg.find? fun e => e.1 == rid).map Prod.snd

/-- Python `dict` assignment. -/
def regSet (reg : Registry) (rid : Nat) (l : List Nat) : Registry :=
  match reg with
  | [] => [(rid, l)]
  | e :: rest => if e.1 = rid then (rid, l) :: rest else e :: regSet rest rid l

/-- Python `del dict[room_id]`. -/
def regDel (reg : Registry) (rid : Nat) : Registry :=
  match reg with
  | [] => []
  | e :: rest => if e.1 = rid then rest else e :: regDel rest rid

/-- Python `list.remove`: removes the first occurrence, or fails with
`ValueError` when the value is absent. -/
def listRemove (x : Nat) : List Nat → Option (List Nat)
  | [] => none
  | y :: ys => if y = x then some ys else (listRemove x ys).map (y :: ·)

theorem length_listRemove_getD (x : Nat) (l : List Nat) :
    ((listRemove x l).getD l).length ≤ l.length := by
  induction l with
  | nil => simp [listRemove]
  | cons y ys ih =>
    by_cases h : y = x
    · simp [listRemove, h]
    · simp only [listRemove, if_neg h]
      cases hr : listRemove x ys with
      | none => simp [hr]
      | some l' =>
        have h2 := ih
        rw [hr, Option.getD_some] at h2
        simp only [Option.map_some', Option.getD_some, List.length_cons]
        omega

/-- `ConnectionManager.connect`: ensure the room's list exists, then
append. -/
def connect (ws rid : Nat) (reg : Registry) : Registry :=
  match regLookup reg rid with
  | none => regSet reg rid [ws]
  | some l => regSet reg rid (l ++ [ws])

/-- `ConnectionManager.disconnect`: a no-op when the room has no entry;
otherwise `list.remove` (raising `ValueError`, modelled as `.error`, if
the websocket is absent), then `del` of the room's entry if the list
became empty. -/
def disconnect (ws rid : Nat) (reg : Registry) : Except Unit Registry :=
  match regLookup reg rid with
  | none => .ok reg
  | some l =>
    match listRemove ws l with
    | none => .error ()
    | some l' => .ok (if l' = [] then regDel reg rid else regSet reg rid l')

/-- The `for connection in self.active_connections[room_id]` loop of
`broadcast`, with Python's iterator semantics over the live, in-place
mutated list: the iterator's index `i` advances every step even when the
failing connection was just removed (shifting the remainder left), so
the element after a removed one is skipped.  Returns the room's final
list and the connections actually delivered to, in order. -/
def broadcastLoop (fails : Nat → Bool) (cur : List Nat) (i : Nat)
    (delivered : List Nat) : List Nat × List Nat :=
  if h : i < cur.length then
    let c := cur.get ⟨i, h⟩
    if fails c then
      broadcastLoop fails ((listRemove c cur).getD cur) (i + 1) delivered
    else
      broadcastLoop fails cur (i + 1) (delivered ++ [c])
  else (cur, delivered)
termination_by cur.length - i
decreasing_by
  · have := length_listRemove_getD (cur.get ⟨i, h⟩) cur
    omega
  · omega

/-- `ConnectionManager.broadcast`: nothing happens when the room has no
registered connections; otherwise the loop above runs, each failing
delivery being pruned through `disconnect` (whose `del` removes the
room's entry if the list empties).  The payload itself does not affect
control flow.  Returns the final registry and the delivered-to
connections. -/
def broadcast (fails : Nat → Bool) (rid : Nat) (reg : Registry) :
    Registry × List Nat :=
  match regLookup reg rid with
  | none => (reg, [])
  | some l =>
    let res := broadcastLoop fails l 0 []
    (if res.1 = [] then regDel reg rid else regSet reg rid res.1, res.2)

/-! ### Envelope parsing round-trip -/

theorem stripLit_append (p s : Bytes) : stripLit p (p ++ s) = some s := by
  induction p with
  | nil => rfl
  | cons x xs ih => simp [stripLit, ih]

theorem splitAtQuote_append (pre post : Bytes) (h : ∀ c ∈ pre, c ≠ 39) :
    splitAtQuote (pre ++ 39 :: post) = some (pre, post) := by
  induction pre with
  | nil => simp [splitAtQuote]
  | cons x xs ih =>
    have hx : x ≠ 39 := h x (List.mem_cons_self x xs)
    have ih2 := ih fun c hc => h c (List.mem_cons_of_mem x hc)
    simp [splitAtQuote, hx, ih2]

theorem evalEnvelope_render (ivS ctS tagS : Bytes)
    (hi : ∀ c ∈ ivS, c ≠ 39) (hc : ∀ c ∈ ctS, c ≠ 39)
    (ht : ∀ c ∈ tagS, c ≠ 39) :
    evalEnvelope (renderEnvelope ivS ctS tagS) = some (ivS, ctS, tagS) := by
  have h125 : (39 : Nat) :: [125] = 39 :: [125] := rfl
  simp only [renderEnvelope, List.append_assoc, List.cons_append]
  simp only [evalEnvelope, stripLit_append, Option.bind_eq_bind,
    Option.some_bind, splitAtQuote_append _ _ hi, splitAtQuote_append _ _ hc,
    splitAtQuote_append _ _ ht]
  rfl


/-! ### Claim support -/

/-- Slicing the `salt(16) || iv(12) || tag(16) || ciphertext` blob at the
fixed offsets used by `decrypt_private_key`. -/
theorem privBlobSlices (salt iv tag ct : Bytes) (hsalt : salt.length = 16)
    (hiv : iv.length = 12) (htag : tag.length = 16) :
    (salt ++ iv ++ tag ++ ct).take 16 = salt ∧
    ((salt ++ iv ++ tag ++ ct).drop 16).take 12 = iv ∧
    ((salt ++ iv ++ tag ++ ct).drop 28).take 16 = tag ∧
    (salt ++ iv ++ tag ++ ct).drop 44 = ct := by
  have h28 : (salt ++ iv).length = 28 := by simp [hsalt, hiv]
  have h44 : (salt ++ iv ++ tag).length = 44 := by simp [hsalt, hiv, htag]
  refine ⟨?_, ?_, ?_, ?_⟩
  · simp only [List.append_assoc]
    rw [← hsalt]
    simp
  · simp only [List.append_assoc]
    rw [← hsalt]
    rw [show (salt ++ (iv ++ (tag ++ ct))).drop salt.length = iv ++ (tag ++ ct) by simp]
    rw [← hiv]
    simp
  · rw [show salt ++ iv ++ tag ++ ct = (salt ++ iv) ++ (tag ++ ct) by
      simp [List.append_assoc]]
    rw [← h28]
    rw [show ((salt ++ iv) ++ (tag ++ ct)).drop (salt ++ iv).length = tag ++ ct by simp]
    rw [← htag]
    simp
  · rw [show salt ++ iv ++ tag ++ ct = (salt ++ iv ++ tag) ++ ct by
      simp [List.append_assoc]]
    rw [← h44]
    simp

/-- C3: round-trip of the private-key vault. -/
theorem private_key_wrap_unwrap_roundtrip (private_key password salt iv : Bytes)
    (hsalt : salt.length = 16) (hiv : iv.length = 12) :
    decrypt_private_key (encrypt_private_key private_key password salt iv)
      password = .ok private_key := by
  unfold encrypt_private_key decrypt_private_key
  rw [b64d_b64e]
  obtain ⟨h1, h2, h3, h4⟩ := privBlobSlices salt iv
    (gcmTag (pbkdf2Key password salt) iv
      (xorStream (pbkdf2Key password salt) iv private_key))
    (xorStream (pbkdf2Key password salt) iv private_key)
    hsalt hiv (length_gcmTag _ _ _)
  simp only [h1, h2, h3, h4, length_gcmTag]
  simp [xorStream_involutive]

/-- C4 (amended): wrong password gives a deterministic tag-mismatch
failure. -/
theorem wrong_password_tag_mismatch (private_key password password' salt iv : Bytes)
    (hne : password' ≠ password) (hsalt : salt.length = 16)
    (hiv : iv.length = 12) :
    decrypt_private_key (encrypt_private_key private_key password salt iv)
      password' = .error .tagMismatch := by
  unfold encrypt_private_key decrypt_private_key
  rw [b64d_b64e]
  obtain ⟨h1, h2, h3, h4⟩ := privBlobSlices salt iv
    (gcmTag (pbkdf2Key password salt) iv
      (xorStream (pbkdf2Key password salt) iv private_key))
    (xorStream (pbkdf2Key password salt) iv private_key)
    hsalt hiv (length_gcmTag _ _ _)
  have htagne : gcmTag (pbkdf2Key password' salt) iv
      (xorStream (pbkdf2Key password salt) iv private_key) ≠
      gcmTag (pbkdf2Key password salt) iv
      (xorStream (pbkdf2Key password salt) iv private_key) :=
    fun hc => hne (pbkdf2Key_inj_password (gcmTag_inj_key hc))
  simp only [h1, h2, h3, h4, length_gcmTag]
  simp [htagne]

/-- C5: round-trip of the message cipher. -/
theorem message_encrypt_decrypt_roundtrip (message shared_secret iv : Bytes) :
    decrypt_message (encrypt_message message shared_secret iv) shared_secret =
      .ok message := by
  simp only [encrypt_message, decrypt_message, b64d_b64e]
  rw [evalEnvelope_render _ _ _ (b64e_ne_quote _) (b64e_ne_quote _) (b64e_ne_quote _)]
  simp only [b64d_b64e, length_gcmTag]
  simp [xorStream_involutive]

/-- C6 (amended): the message blob is the base64 of a self-describing
`str(dict)` envelope, recovered by evaluating/parsing the decoded text
into its `iv`, `ciphertext` and `tag` fields. -/
theorem message_blob_is_dict_envelope (message shared_secret iv : Bytes) :
    (b64d (encrypt_message message shared_secret iv)).bind evalEnvelope =
      some (b64e iv,
        b64e (xorStream (messageKey shared_secret) iv message),
        b64e (gcmTag (messageKey shared_secret) iv
          (xorStream (messageKey shared_secret) iv message))) := by
  unfold encrypt_message
  rw [b64d_b64e, Option.some_bind,
    evalEnvelope_render _ _ _ (b64e_ne_quote _) (b64e_ne_quote _) (b64e_ne_quote _)]

/-! ### Concrete inputs for witnesses and counterexamples -/

/-- A 16-byte salt, as `os.urandom(16)` might return. -/
def salt16 : Bytes := List.replicate 16 0

/-- A 12-byte GCM nonce, as `os.urandom(12)` might return. -/
def iv12 : Bytes := List.replicate 12 0

/-- A 32-byte room (epoch) key, as `os.urandom(32)` might return. -/
def demoRoomKey : Bytes := List.replicate 32 9

/-- A registered user with the keypair of seed 0. -/
def demoCreator : UserRec := ⟨1, b64e (kyberPub 0)⟩

/-- A second registered user with the keypair of seed 1. -/
def demoJoiner : UserRec := ⟨2, b64e (kyberPub 1)⟩

/-- The KEM ciphertext of `encapsulate_key` against the creator's key. -/
def demoCt : Bytes := (encapsulate_key true (kyberPub 0) 0 [] []).2

/-- The creator's persisted key-distribution blob, as `create_room`
builds it. -/
def demoBlob : Bytes := b64e (demoRoomKey ++ demoCt)

/-- A database holding one room whose only member is the creator. -/
def demoDB : DB := ⟨[⟨10, "room"⟩], [(1, 10)], [⟨10, 1, demoBlob⟩], 11⟩

/-- An empty database. -/
def emptyDB : DB := ⟨[], [], [], 0⟩

/-- C3 witness. -/
theorem private_key_wrap_unwrap_roundtrip_witness :
    decrypt_private_key (encrypt_private_key [7] [1] salt16 iv12) [1] =
      .ok [7] :=
  private_key_wrap_unwrap_roundtrip [7] [1] salt16 iv12 rfl rfl

/-- C4 witness for the amended claim. -/
theorem wrong_password_tag_mismatch_witness :
    decrypt_private_key (encrypt_private_key [7] [1] salt16 iv12) [2] =
      .error .tagMismatch :=
  wrong_password_tag_mismatch [7] [1] [2] salt16 iv12 (by decide) rfl rfl

set_option maxRecDepth 8000 in
/-- C4 counterexample to the claim as stated: the error raised for a
wrong password (an AEAD tag mismatch) and the error raised for a
corrupted blob (here: text that is not valid base64) carry different
embedded causes, so the single `ValueError` is not identical across the
two cases. -/
theorem auth_error_distinguishes_corruption_counterexample :
    decrypt_private_key (encrypt_private_key [7] [1] salt16 iv12) [2] =
      .error .tagMismatch ∧
    decrypt_private_key [65] [2] = .error .b64Error ∧
    PrivKeyDecryptErr.tagMismatch ≠ PrivKeyDecryptErr.b64Error :=
  ⟨rfl, rfl, by decide⟩

set_option maxRecDepth 8000 in
/-- C6 counterexample to the claim as stated: the decoded message blob
does not begin with the 12-byte nonce, so it is not the fixed-order
concatenation `nonce(12) || tag(16) || ciphertext`. -/
theorem message_blob_not_fixed_layout_counterexample :
    (b64d (encrypt_message [7] [] iv12)).isSome = true ∧
    (b64d (encrypt_message [7] [] iv12)).map (fun l => l.take 12) ≠
      some iv12 :=
  ⟨rfl, by decide⟩

/-- C1: with the KEM unavailable, `generate_kyber_keypair` does not fail
with any error — it returns the two fresh `os.urandom(32)` strings as
the "keypair", for every execution (the availability flag is consulted
inside the call, not at startup). -/
theorem keygen_unavailable_returns_random_bytes (seed : Nat)
    (rnd1 rnd2 : Bytes) :
    generate_kyber_keypair false seed rnd1 rnd2 = (rnd1, rnd2) := rfl

set_option maxRecDepth 8000 in
/-- C2: evaluating `create_room` on a concrete database: the single
persisted `KeyDistribution` blob base64-decodes to a byte string whose
first 32 bytes are the room's epoch key itself — the epoch key is
persisted in cleartext (the KEM shared secret is computed and then
discarded, sealing nothing). -/
theorem create_room_persists_cleartext_epoch_key :
    ((create_room true demoCreator "general" demoRoomKey 0 [] [] emptyDB).1.key_dists.map
      (fun kd => (b64d kd.encapsulated_key).map (fun l => l.take 32)))
      = [some demoRoomKey] := rfl

/-- C7: every execution of `create_room` adds exactly the creator as the
new room's member set (size one) and persists exactly one distribution
row, keyed to that member — one entry per member.  The freshness
hypotheses say the new room id is not already in use. -/
theorem create_room_one_distribution_per_member
    (kem : Bool) (user : UserRec) (name : String) (room_symmetric_key : Bytes)
    (r : Nat) (rnd1 rnd2 : Bytes) (db : DB)
    (hm : room_members db db.nextRoomId = [])
    (hk : room_key_dists db db.nextRoomId = []) :
    room_members (create_room kem user name room_symmetric_key r rnd1 rnd2 db).1
        (create_room kem user name room_symmetric_key r rnd1 rnd2 db).2.id
      = [user.id] ∧
    (room_key_dists (create_room kem user name room_symmetric_key r rnd1 rnd2 db).1
        (create_room kem user name room_symmetric_key r rnd1 rnd2 db).2.id).map
        (fun kd => kd.user_id)
      = [user.id] := by
  have hm' : db.memberships.filter (fun m => m.2 == db.nextRoomId) = [] := by
    have := List.map_eq_nil_iff.mp hm
    exact this
  have hk' : db.key_dists.filter (fun kd => kd.room_id == db.nextRoomId) = [] := hk
  constructor
  · simp [create_room, room_members, List.filter_append, hm']
  · simp [create_room, room_key_dists, List.filter_append, hk']

/-- C7 witness. -/
theorem create_room_one_distribution_per_member_witness :
    room_members (create_room true demoCreator "general" demoRoomKey 0 [] [] emptyDB).1
        (create_room true demoCreator "general" demoRoomKey 0 [] [] emptyDB).2.id
      = [1] ∧
    (room_key_dists (create_room true demoCreator "general" demoRoomKey 0 [] [] emptyDB).1
        (create_room true demoCreator "general" demoRoomKey 0 [] [] emptyDB).2.id).map
        (fun kd => kd.user_id)
      = [1] :=
  create_room_one_distribution_per_member true demoCreator "general" demoRoomKey
    0 [] [] emptyDB rfl rfl

/-- C8 (amended): `join_room` appends exactly one new `KeyDistribution`
row for the joining member, leaving every existing row unchanged; the
new row's blob is a byte-for-byte re-encoded copy of another member's
blob (no re-encapsulation against the joiner's public key happens). -/
theorem join_room_adds_single_copied_entry
    (user : UserRec) (rid : Nat) (db : DB) (room : RoomRec)
    (ckd : KeyDistribution)
    (hroom : db.rooms.find? (fun rr => rr.id == rid) = some room)
    (hmem : (user.id, rid) ∉ db.memberships)
    (hfind : db.key_dists.find?
      (fun kd => kd.room_id == rid && kd.user_id != user.id) = some ckd) :
    join_room user rid db = .ok { db with
      memberships := db.memberships ++ [(user.id, rid)],
      key_dists := db.key_dists ++
        [⟨room.id, user.id, b64e ((b64d ckd.encapsulated_key).getD [])⟩] } := by
  unfold join_room
  rw [hroom]
  simp only [if_neg hmem]
  rw [hfind]

/-- C8 witness for the amended claim. -/
theorem join_room_adds_single_copied_entry_witness :
    join_room demoJoiner 10 demoDB = .ok { demoDB with
      memberships := demoDB.memberships ++ [(demoJoiner.id, 10)],
      key_dists := demoDB.key_dists ++
        [⟨10, demoJoiner.id, b64e ((b64d demoBlob).getD [])⟩] } :=
  join_room_adds_single_copied_entry demoJoiner 10 demoDB ⟨10, "room"⟩
    ⟨10, 1, demoBlob⟩ rfl (by decide) rfl

set_option maxRecDepth 8000 in
/-- C8 counterexample to the claim as stated: after the join, the
joiner's new entry is byte-identical to the creator's entry; its KEM
ciphertext component does not decapsulate to the sealing shared secret
under the joiner's own private key (it was encapsulated against the
creator's key), while the epoch key sits in the blob's first 32 bytes in
cleartext, needing no private key at all. -/
theorem join_room_copies_creator_blob_counterexample :
    (join_room demoJoiner 10 demoDB).toOption.map
        (fun db => db.key_dists.map (fun kd => kd.encapsulated_key))
      = some [demoBlob, demoBlob] ∧
    decapsulate_key true (kyberPriv 1) (((b64d demoBlob).getD []).drop 32) []
      ≠ kemSharedSecret (kyberPub 0) 0 ∧
    ((b64d demoBlob).getD []).take 32 = demoRoomKey :=
  ⟨rfl, by decide, rfl⟩

/-- C9: evaluating `broadcast` on a room with three live connections
where the first delivery fails: the failing connection is pruned, but
the connection right after it is skipped (never delivered to) because
the loop iterates the list it is mutating — only the third connection
receives the payload, while the second remains registered. -/
theorem broadcast_skips_after_failed_delivery :
    broadcast (fun c => c == 1) 1 [(1, [1, 2, 3])] = ([(1, [2, 3])], [3]) := by
  simp [broadcast, broadcastLoop, regLookup, regSet, listRemove]

/-- C10: `disconnect` is not idempotent — after disconnecting websocket
7 from room 1 (leaving websocket 8 registered), a second disconnect of
the same pair hits `list.remove` on a list not containing 7 and raises
`ValueError`; only when the room has no registry entry at all is it a
no-op. -/
theorem disconnect_second_call_raises :
    disconnect 7 1 [(1, [7, 8])] = .ok [(1, [8])] ∧
    disconnect 7 1 [(1, [8])] = .error () ∧
    disconnect 7 1 [] = .ok ([] : Registry) :=
  ⟨rfl, rfl, rfl⟩
